import Mathlib

/-!
Verification of the database snapshot/diff/restore engine of a FastAPI template.

The embedding follows the source files:
- app/infrastructure/database/backup/core.py
    (_serialize_value, _deserialize_value, calculate_diff, restore_backup,
     get_current_migration_version)
- app/infrastructure/database/backup/models.py
    (BackupMetadata, TableBackup, BackupData, TableDiff, DiffSummary, RestoreResult)
- app/infrastructure/batch/tasks/backup.py (BackupTask._cleanup_old_backups)

Python cell values are modelled by the closed sum type Value.  Library
collaborators used by the code (datetime.isoformat / fromisoformat,
datetime.strptime, base64.b64encode / b64decode) are modelled as executable
Lean functions faithful to their behaviour on the shapes the engine produces.
Fallible Python code is modelled with Except; the single transaction opened by
restore_backup (engine.begin) is modelled by committing the transformed state
only on a successful run and keeping the pre-restore state on any error, which
is exactly the commit/rollback contract of the context manager in the source.
-/

namespace FastapiBackup

/-! ## Timestamps (datetime values) -/

/-- Model of a Python datetime: calendar fields plus an optional fixed UTC
offset in minutes (an aware datetime carries such an offset, a naive one
carries none). -/
structure Timestamp where
  year : Nat
  month : Nat
  day : Nat
  hour : Nat
  minute : Nat
  second : Nat
  microsecond : Nat
  tzOffsetMinutes : Option Int
deriving DecidableEq, Repr

/-- Gregorian leap-year rule, as used by Python's datetime. -/
def isLeap (y : Nat) : Bool :=
  y % 4 = 0 && (y % 100 ≠ 0 || y % 400 = 0)

/-- Number of days of a month, as validated by the datetime constructor. -/
def daysInMonth (y m : Nat) : Nat :=
  if m = 2 then (if isLeap y then 29 else 28)
  else if m = 4 || m = 6 || m = 9 || m = 11 then 30
  else 31

/-- Range validation performed by the Python datetime constructor (and hence
by strptime and fromisoformat before they return a datetime). -/
def validTimestamp (t : Timestamp) : Bool :=
  1 ≤ t.year && t.year ≤ 9999 &&
  1 ≤ t.month && t.month ≤ 12 &&
  1 ≤ t.day && t.day ≤ daysInMonth t.year t.month &&
  t.hour ≤ 23 && t.minute ≤ 59 && t.second ≤ 59 &&
  t.microsecond ≤ 999999 &&
  (match t.tzOffsetMinutes with
   | none => true
   | some off => off.natAbs ≤ 1439)

/-! ## Fixed-width decimal printing and parsing -/

/-- Character of a single decimal digit. -/
def digChar (d : Nat) : Char := Char.ofNat (48 + d)

/-- Zero-padded fixed-width decimal rendering, most significant digit first
(the w digits of n below 10 ^ w). -/
def padChars : Nat → Nat → List Char
  | 0, _ => []
  | w + 1, n => digChar (n / 10 ^ w % 10) :: padChars w n

/-- Consume exactly w decimal digit characters, folding them onto an
accumulator; fails on a non-digit or on exhausted input. -/
def parseFixed : Nat → Nat → List Char → Option (Nat × List Char)
  | 0, acc, cs => some (acc, cs)
  | _ + 1, _, [] => none
  | w + 1, acc, c :: cs =>
      if c.isDigit then parseFixed w (acc * 10 + (c.toNat - 48)) cs else none

/-- Consume one expected character. -/
def expectChar (c : Char) : List Char → Option (List Char)
  | x :: rest => if x = c then some rest else none
  | [] => none

theorem digChar_isDigit {d : Nat} (h : d < 10) : (digChar d).isDigit = true := by
  interval_cases d <;> decide

theorem digChar_toNat {d : Nat} (h : d < 10) : (digChar d).toNat = 48 + d := by
  interval_cases d <;> decide

theorem parseFixed_padChars (w : Nat) :
    ∀ (acc n : Nat) (rest : List Char),
      parseFixed w acc (padChars w n ++ rest) =
        some (acc * 10 ^ w + n % 10 ^ w, rest) := by
  induction w with
  | zero => intro acc n rest; simp [parseFixed, padChars, Nat.mod_one]
  | succ w ih =>
      intro acc n rest
      have hd : n / 10 ^ w % 10 < 10 := Nat.mod_lt _ (by norm_num)
      simp only [padChars, List.cons_append, parseFixed,
        digChar_isDigit hd, if_true, digChar_toNat hd, Nat.add_sub_cancel_left,
        List.append_eq]
      rw [ih]
      congr 1
      congr 1
      have h1 : n % 10 ^ (w + 1) % 10 ^ w = n % 10 ^ w :=
        Nat.mod_mod_of_dvd n (by rw [pow_succ]; exact Dvd.intro 10 rfl)
      have h2 : n % 10 ^ (w + 1) / 10 ^ w = n / 10 ^ w % 10 := by
        rw [pow_succ, Nat.mod_mul_right_div_self]
      have h3 := Nat.div_add_mod (n % 10 ^ (w + 1)) (10 ^ w)
      rw [h1, h2] at h3
      calc (acc * 10 + n / 10 ^ w % 10) * 10 ^ w + n % 10 ^ w
          = acc * 10 ^ (w + 1) + (10 ^ w * (n / 10 ^ w % 10) + n % 10 ^ w) := by ring
        _ = acc * 10 ^ (w + 1) + n % 10 ^ (w + 1) := by rw [h3]

/-! ## ISO-8601 formatting and parsing (datetime.isoformat / fromisoformat)

The model covers exactly the strings datetime.isoformat produces: date and
time separated by T, a 6-digit fractional part present only when the
microsecond field is nonzero, and a sign HH:MM offset suffix present only for
aware datetimes. fromisoformat is modelled as the parser of those shapes,
returning none (the ValueError case in Python) on anything else. -/

/-- Characters of the utcoffset suffix emitted by isoformat. -/
def tzChars : Option Int → List Char
  | none => []
  | some off =>
      (if off < 0 then '-' else '+') ::
        (padChars 2 (off.natAbs / 60) ++ ':' :: padChars 2 (off.natAbs % 60))

/-- Characters of datetime.isoformat. -/
def isoChars (t : Timestamp) : List Char :=
  padChars 4 t.year ++ '-' :: padChars 2 t.month ++ '-' :: padChars 2 t.day ++
  'T' :: padChars 2 t.hour ++ ':' :: padChars 2 t.minute ++
  ':' :: padChars 2 t.second ++
  (if t.microsecond = 0 then [] else '.' :: padChars 6 t.microsecond) ++
  tzChars t.tzOffsetMinutes

/-- Model of datetime.isoformat. -/
def isoformat (t : Timestamp) : String := String.mk (isoChars t)

/-- Parse the optional utcoffset suffix. -/
def parseTz : List Char → Option (Option Int × List Char)
  | [] => some (none, [])
  | '+' :: rest =>
      match parseFixed 2 0 rest with
      | none => none
      | some (hh, r1) =>
        match expectChar ':' r1 with
        | none => none
        | some r2 =>
          match parseFixed 2 0 r2 with
          | none => none
          | some (mm, r3) => some (some ((hh * 60 + mm : Nat) : Int), r3)
  | '-' :: rest =>
      match parseFixed 2 0 rest with
      | none => none
      | some (hh, r1) =>
        match expectChar ':' r1 with
        | none => none
        | some r2 =>
          match parseFixed 2 0 r2 with
          | none => none
          | some (mm, r3) => some (some (-((hh * 60 + mm : Nat) : Int)), r3)
  | _ => none

/-- Parse the optional 6-digit fractional-seconds part. -/
def parseFrac : List Char → Option (Nat × List Char)
  | '.' :: rest => parseFixed 6 0 rest
  | cs => some (0, cs)

/-- Model of datetime.fromisoformat on the shapes isoformat emits; any other
string yields none, which the callers treat as the ValueError case. -/
def fromisoformatChars (cs : List Char) : Option Timestamp := do
  let (y, cs) ← parseFixed 4 0 cs
  let cs ← expectChar '-' cs
  let (mo, cs) ← parseFixed 2 0 cs
  let cs ← expectChar '-' cs
  let (d, cs) ← parseFixed 2 0 cs
  let cs ← expectChar 'T' cs
  let (h, cs) ← parseFixed 2 0 cs
  let cs ← expectChar ':' cs
  let (mi, cs) ← parseFixed 2 0 cs
  let cs ← expectChar ':' cs
  let (s, cs) ← parseFixed 2 0 cs
  let (us, cs) ← parseFrac cs
  let (tz, cs) ← parseTz cs
  let t : Timestamp := ⟨y, mo, d, h, mi, s, us, tz⟩
  if cs = [] ∧ validTimestamp t then some t else none

/-- Model of datetime.fromisoformat. -/
def fromisoformat (s : String) : Option Timestamp := fromisoformatChars s.data

theorem daysInMonth_le (y m : Nat) : daysInMonth y m ≤ 31 := by
  unfold daysInMonth
  split
  · split <;> omega
  · split <;> omega

theorem validTimestamp_bounds (t : Timestamp) (h : validTimestamp t = true) :
    t.year < 10 ^ 4 ∧ t.month < 10 ^ 2 ∧ t.day < 10 ^ 2 ∧ t.hour < 10 ^ 2 ∧
    t.minute < 10 ^ 2 ∧ t.second < 10 ^ 2 ∧ t.microsecond < 10 ^ 6 := by
  simp only [validTimestamp, Bool.and_eq_true, decide_eq_true_eq] at h
  have hd := daysInMonth_le t.year t.month
  norm_num
  omega

theorem validTimestamp_tz (t : Timestamp) (h : validTimestamp t = true)
    (off : Int) (ho : t.tzOffsetMinutes = some off) : off.natAbs ≤ 1439 := by
  simp only [validTimestamp, Bool.and_eq_true, decide_eq_true_eq, ho] at h
  exact h.2

/-- Specialisation of parseFixed_padChars to a zero accumulator and an
in-range value. -/
theorem parseFixed0 (w n : Nat) (rest : List Char) (h : n < 10 ^ w) :
    parseFixed w 0 (padChars w n ++ rest) = some (n, rest) := by
  rw [parseFixed_padChars, Nat.zero_mul, Nat.zero_add, Nat.mod_eq_of_lt h]

/-- Variant of parseFixed0 with nothing after the digits. -/
theorem parseFixed0_nil (w n : Nat) (h : n < 10 ^ w) :
    parseFixed w 0 (padChars w n) = some (n, []) := by
  have := parseFixed0 w n [] h
  rwa [List.append_nil] at this

/-- Parsing the utcoffset suffix inverts printing it. -/
theorem parseTz_tzChars (tz : Option Int)
    (h : ∀ off, tz = some off → off.natAbs ≤ 1439) :
    parseTz (tzChars tz) = some (tz, []) := by
  match tz with
  | none => simp [tzChars, parseTz]
  | some off =>
      have hoff := h off rfl
      have hh : off.natAbs / 60 < 10 ^ 2 := by norm_num; omega
      have hm : off.natAbs % 60 < 10 ^ 2 := by norm_num; omega
      have hsplit : off.natAbs / 60 * 60 + off.natAbs % 60 = off.natAbs := by omega
      by_cases hneg : off < 0
      · simp only [tzChars, if_pos hneg, parseTz]
        rw [parseFixed0 _ _ _ hh]
        simp only [expectChar, eq_self_iff_true, if_true]
        rw [parseFixed0_nil _ _ hm]
        have : -((↑(off.natAbs / 60 * 60 + off.natAbs % 60) : Int)) = off := by
          omega
        simp only [this]
      · simp only [tzChars, if_neg hneg, parseTz]
        rw [parseFixed0 _ _ _ hh]
        simp only [expectChar, eq_self_iff_true, if_true]
        rw [parseFixed0_nil _ _ hm]
        have : ((↑(off.natAbs / 60 * 60 + off.natAbs % 60) : Int)) = off := by
          omega
        simp only [this]

set_option maxHeartbeats 1600000 in
/-- Round trip of the datetime codec: fromisoformat parses back exactly the
datetime that isoformat printed. -/
theorem fromisoformatChars_isoChars (t : Timestamp)
    (h : validTimestamp t = true) :
    fromisoformatChars (isoChars t) = some t := by
  obtain ⟨hy, hmo, hd, hh, hmi, hs, hus⟩ := validTimestamp_bounds t h
  have htz := validTimestamp_tz t h
  obtain ⟨y, mo, d, hr, mi, s, us, tz⟩ := t
  simp only at hy hmo hd hh hmi hs hus htz
  simp only [isoChars, fromisoformatChars, List.append_assoc, List.cons_append]
  rw [parseFixed_padChars]
  simp only [Nat.zero_mul, Nat.zero_add, Nat.mod_eq_of_lt hy, Option.bind_eq_bind,
    Option.some_bind, expectChar, eq_self_iff_true, if_true]
  rw [parseFixed_padChars]
  simp only [Nat.zero_mul, Nat.zero_add, Nat.mod_eq_of_lt hmo, Option.some_bind,
    expectChar, eq_self_iff_true, if_true]
  rw [parseFixed_padChars]
  simp only [Nat.zero_mul, Nat.zero_add, Nat.mod_eq_of_lt hd, Option.some_bind,
    expectChar, eq_self_iff_true, if_true]
  rw [parseFixed_padChars]
  simp only [Nat.zero_mul, Nat.zero_add, Nat.mod_eq_of_lt hh, Option.some_bind,
    expectChar, eq_self_iff_true, if_true]
  rw [parseFixed_padChars]
  simp only [Nat.zero_mul, Nat.zero_add, Nat.mod_eq_of_lt hmi, Option.some_bind,
    expectChar, eq_self_iff_true, if_true]
  rw [parseFixed_padChars]
  simp only [Nat.zero_mul, Nat.zero_add, Nat.mod_eq_of_lt hs, Option.some_bind]
  by_cases husz : us = 0
  · subst husz
    simp only [eq_self_iff_true, if_true, List.nil_append]
    have hfrac : parseFrac (tzChars tz) = some (0, tzChars tz) := by
      match tz with
      | none => simp [tzChars, parseFrac]
      | some off => by_cases hneg : off < 0 <;>
          simp [tzChars, parseFrac, hneg]
    rw [hfrac]
    simp only [Option.some_bind]
    rw [parseTz_tzChars tz htz]
    simp only [Option.some_bind]
    rw [if_pos ⟨trivial, h⟩]
  · rw [if_neg husz]
    simp only [List.cons_append, parseFrac]
    rw [parseFixed_padChars]
    simp only [Nat.zero_mul, Nat.zero_add, Nat.mod_eq_of_lt hus, Option.some_bind]
    rw [parseTz_tzChars tz htz]
    simp only [Option.some_bind]
    rw [if_pos ⟨trivial, h⟩]

/-! ## Base64 (base64.b64encode / b64decode)

Bytes are modelled as lists of naturals below 256.  b64encode is the standard
algorithm with '=' padding.  b64decode models CPython's non-strict decoder on
the standard alphabet: characters outside the alphabet are discarded, the
input (after filtering) must be a multiple of four characters long, data
before the first padding character is decoded in six-bit groups, and a
leftover group of one character is a padding error (binascii.Error, a
ValueError subclass). -/

/-- Standard base64 alphabet. -/
def b64Alphabet : List Char :=
  ['A','B','C','D','E','F','G','H','I','J','K','L','M','N','O','P','Q','R',
   'S','T','U','V','W','X','Y','Z','a','b','c','d','e','f','g','h','i','j',
   'k','l','m','n','o','p','q','r','s','t','u','v','w','x','y','z','0','1',
   '2','3','4','5','6','7','8','9','+','/']

/-- Character of a six-bit group. -/
def b64Char (n : Nat) : Char := b64Alphabet.getD n 'A'

/-- Index of a character in the alphabet, none for foreign characters. -/
def b64ValGo : List Char → Nat → Char → Option Nat
  | [], _, _ => none
  | a :: rest, i, c => if a = c then some i else b64ValGo rest (i + 1) c

/-- Six-bit value of an alphabet character. -/
def b64Val (c : Char) : Option Nat := b64ValGo b64Alphabet 0 c

/-- Model of base64.b64encode over byte lists. -/
def b64encode : List Nat → List Char
  | [] => []
  | [a] => [b64Char (a / 4), b64Char (a % 4 * 16), '=', '=']
  | [a, b] => [b64Char (a / 4), b64Char (a % 4 * 16 + b / 16), b64Char (b % 16 * 4), '=']
  | a :: b :: c :: rest =>
      b64Char (a / 4) :: b64Char (a % 4 * 16 + b / 16) ::
      b64Char (b % 16 * 4 + c / 64) :: b64Char (c % 64) :: b64encode rest

/-- Errors of the embedded Python code.  Each constructor stands for one
exception class raised (or wrapped) by the source. -/
inductive Err where
  | fileNotFound
  | keyError
  | typeError
  | binasciiError
  | noSuchTable (table : String)
  | opError (msg : String)
  | runtimeError (cause : Err)
deriving DecidableEq, Repr

/-- Decode six-bit groups (the data before any padding) into bytes; a
leftover single character is a padding error. -/
def b64DecodeGroups : List Nat → Except Err (List Nat)
  | [] => .ok []
  | [_] => .error .binasciiError
  | [a, b] => .ok [a * 4 + b / 16]
  | [a, b, c] => .ok [a * 4 + b / 16, b % 16 * 16 + c / 4]
  | a :: b :: c :: d :: rest =>
      match b64DecodeGroups rest with
      | .error e => .error e
      | .ok t => .ok ((a * 4 + b / 16) :: (b % 16 * 16 + c / 4) :: (c % 4 * 64 + d) :: t)

/-- Model of base64.b64decode (non-strict mode) over the characters of the
encoded string. -/
def b64decode (cs : List Char) : Except Err (List Nat) :=
  let kept := cs.filter (fun c => (b64Val c).isSome || c = '=')
  if kept.length % 4 = 0 then
    b64DecodeGroups ((kept.takeWhile (fun c => c ≠ '=')).filterMap b64Val)
  else .error .binasciiError

theorem b64Val_b64Char_lt {n : Nat} (h : n < 64) : b64Val (b64Char n) = some n := by
  interval_cases n <;> rfl

theorem b64Char_ne_pad (n : Nat) : b64Char n ≠ '=' := by
  by_cases h : n < 64
  · interval_cases n <;> decide
  · have : b64Alphabet.length ≤ n := by simp [b64Alphabet]; omega
    rw [b64Char, List.getD_eq_default _ _ this]
    decide

theorem b64Val_b64Char_isSome (n : Nat) : (b64Val (b64Char n)).isSome = true := by
  by_cases h : n < 64
  · rw [b64Val_b64Char_lt h]; rfl
  · have : b64Alphabet.length ≤ n := by simp [b64Alphabet]; omega
    rw [b64Char, List.getD_eq_default _ _ this]
    decide

theorem b64encode_keep (bs : List Nat) :
    ∀ c ∈ b64encode bs, ((b64Val c).isSome || c = '=') = true := by
  induction bs using b64encode.induct with
  | case1 => simp [b64encode]
  | case2 a =>
      intro c hc
      simp only [b64encode, List.mem_cons, List.not_mem_nil, or_false] at hc
      rcases hc with rfl | rfl | rfl | rfl
      · simp [b64Val_b64Char_isSome]
      · simp [b64Val_b64Char_isSome]
      · decide
      · decide
  | case3 a b =>
      intro c hc
      simp only [b64encode, List.mem_cons, List.not_mem_nil, or_false] at hc
      rcases hc with rfl | rfl | rfl | rfl
      · simp [b64Val_b64Char_isSome]
      · simp [b64Val_b64Char_isSome]
      · simp [b64Val_b64Char_isSome]
      · decide
  | case4 a b c rest ih =>
      intro x hx
      simp only [b64encode, List.mem_cons] at hx
      rcases hx with rfl | rfl | rfl | rfl | hx
      · simp [b64Val_b64Char_isSome]
      · simp [b64Val_b64Char_isSome]
      · simp [b64Val_b64Char_isSome]
      · simp [b64Val_b64Char_isSome]
      · exact ih x hx

theorem b64encode_length_mod (bs : List Nat) : (b64encode bs).length % 4 = 0 := by
  induction bs using b64encode.induct with
  | case1 => rfl
  | case2 a => simp [b64encode]
  | case3 a b => simp [b64encode]
  | case4 a b c rest ih => simp only [b64encode, List.length_cons]; omega

theorem b64_groups_inverse (bs : List Nat) (h : ∀ x ∈ bs, x < 256) :
    b64DecodeGroups
      (((b64encode bs).takeWhile (fun c => c ≠ '=')).filterMap b64Val) = .ok bs := by
  induction bs using b64encode.induct with
  | case1 => rfl
  | case2 a =>
      have ha : a < 256 := h a (by simp)
      simp only [b64encode]
      rw [List.takeWhile_cons_of_pos (by simp [b64Char_ne_pad]),
        List.takeWhile_cons_of_pos (by simp [b64Char_ne_pad]),
        List.takeWhile_cons_of_neg (by simp)]
      simp only [List.filterMap_cons, b64Val_b64Char_lt (show a / 4 < 64 by omega),
        b64Val_b64Char_lt (show a % 4 * 16 < 64 by omega), List.filterMap_nil]
      simp only [b64DecodeGroups]
      congr 1
      have : a / 4 * 4 + a % 4 * 16 / 16 = a := by omega
      rw [this]
  | case3 a b =>
      have ha : a < 256 := h a (by simp)
      have hb : b < 256 := h b (by simp)
      simp only [b64encode]
      rw [List.takeWhile_cons_of_pos (by simp [b64Char_ne_pad]),
        List.takeWhile_cons_of_pos (by simp [b64Char_ne_pad]),
        List.takeWhile_cons_of_pos (by simp [b64Char_ne_pad]),
        List.takeWhile_cons_of_neg (by simp)]
      simp only [List.filterMap_cons, b64Val_b64Char_lt (show a / 4 < 64 by omega),
        b64Val_b64Char_lt (show a % 4 * 16 + b / 16 < 64 by omega),
        b64Val_b64Char_lt (show b % 16 * 4 < 64 by omega), List.filterMap_nil]
      simp only [b64DecodeGroups]
      congr 1
      have h1 : a / 4 * 4 + (a % 4 * 16 + b / 16) / 16 = a := by omega
      have h2 : (a % 4 * 16 + b / 16) % 16 * 16 + b % 16 * 4 / 4 = b := by omega
      rw [h1, h2]
  | case4 a b c rest ih =>
      have ha : a < 256 := h a (by simp)
      have hb : b < 256 := h b (by simp)
      have hc : c < 256 := h c (by simp)
      have hrest : ∀ x ∈ rest, x < 256 := fun x hx => h x (by simp [hx])
      simp only [b64encode]
      rw [List.takeWhile_cons_of_pos (by simp [b64Char_ne_pad]),
        List.takeWhile_cons_of_pos (by simp [b64Char_ne_pad]),
        List.takeWhile_cons_of_pos (by simp [b64Char_ne_pad]),
        List.takeWhile_cons_of_pos (by simp [b64Char_ne_pad])]
      simp only [List.filterMap_cons, b64Val_b64Char_lt (show a / 4 < 64 by omega),
        b64Val_b64Char_lt (show a % 4 * 16 + b / 16 < 64 by omega),
        b64Val_b64Char_lt (show b % 16 * 4 + c / 64 < 64 by omega),
        b64Val_b64Char_lt (show c % 64 < 64 by omega)]
      simp only [b64DecodeGroups, ih hrest]
      have h1 : a / 4 * 4 + (a % 4 * 16 + b / 16) / 16 = a := by omega
      have h2 : (a % 4 * 16 + b / 16) % 16 * 16 + (b % 16 * 4 + c / 64) / 4 = b := by
        omega
      have h3 : (b % 16 * 4 + c / 64) % 4 * 64 + c % 64 = c := by omega
      rw [h1, h2, h3]

/-- Round trip of the bytes codec: b64decode inverts b64encode on byte
lists. -/
theorem b64decode_b64encode (bs : List Nat) (h : ∀ x ∈ bs, x < 256) :
    b64decode (b64encode bs) = .ok bs := by
  simp only [b64decode]
  rw [List.filter_eq_self.mpr (b64encode_keep bs), if_pos (b64encode_length_mod bs)]
  exact b64_groups_inverse bs h

/-! ## Cell values

Python cell values and their JSON images are modelled by one closed sum type.
The float payload is the IEEE-754 bit pattern, left uninterpreted because the
codec passes floats through untouched.  A dict carries its entries in
insertion order, as a Python dict does. -/

/-- Model of a Python cell value (database side or JSON side). -/
inductive Value where
  | vnone
  | vbool (b : Bool)
  | vint (n : Int)
  | vfloat (bits : Nat)
  | vstr (s : String)
  | vdatetime (t : Timestamp)
  | vbytes (bs : List Nat)
  | vdict (entries : List (String × Value))
deriving Repr

mutual

/-- Structural boolean equality of values. -/
def Value.beq : Value → Value → Bool
  | .vnone, .vnone => true
  | .vbool x, .vbool y => x == y
  | .vint x, .vint y => x == y
  | .vfloat x, .vfloat y => x == y
  | .vstr x, .vstr y => x == y
  | .vdatetime x, .vdatetime y => x == y
  | .vbytes x, .vbytes y => x == y
  | .vdict xs, .vdict ys => Value.beqEntries xs ys
  | _, _ => false

/-- Structural boolean equality of dict entry lists. -/
def Value.beqEntries : List (String × Value) → List (String × Value) → Bool
  | [], [] => true
  | (k1, v1) :: r1, (k2, v2) :: r2 =>
      k1 == k2 && Value.beq v1 v2 && Value.beqEntries r1 r2
  | _, _ => false

end

mutual

theorem Value.beq_iff : ∀ a b : Value, Value.beq a b = true ↔ a = b
  | .vnone, .vnone => by simp [Value.beq]
  | .vbool x, .vbool y => by simp [Value.beq]
  | .vint x, .vint y => by simp [Value.beq]
  | .vfloat x, .vfloat y => by simp [Value.beq]
  | .vstr x, .vstr y => by simp [Value.beq]
  | .vdatetime x, .vdatetime y => by simp [Value.beq]
  | .vbytes x, .vbytes y => by simp [Value.beq]
  | .vdict xs, .vdict ys => by
      simp only [Value.beq]
      rw [Value.beqEntries_iff xs ys]
      constructor
      · intro h; rw [h]
      · intro h; injection h
  | .vnone, .vbool _ => by simp [Value.beq]
  | .vnone, .vint _ => by simp [Value.beq]
  | .vnone, .vfloat _ => by simp [Value.beq]
  | .vnone, .vstr _ => by simp [Value.beq]
  | .vnone, .vdatetime _ => by simp [Value.beq]
  | .vnone, .vbytes _ => by simp [Value.beq]
  | .vnone, .vdict _ => by simp [Value.beq]
  | .vbool _, .vnone => by simp [Value.beq]
  | .vbool _, .vint _ => by simp [Value.beq]
  | .vbool _, .vfloat _ => by simp [Value.beq]
  | .vbool _, .vstr _ => by simp [Value.beq]
  | .vbool _, .vdatetime _ => by simp [Value.beq]
  | .vbool _, .vbytes _ => by simp [Value.beq]
  | .vbool _, .vdict _ => by simp [Value.beq]
  | .vint _, .vnone => by simp [Value.beq]
  | .vint _, .vbool _ => by simp [Value.beq]
  | .vint _, .vfloat _ => by simp [Value.beq]
  | .vint _, .vstr _ => by simp [Value.beq]
  | .vint _, .vdatetime _ => by simp [Value.beq]
  | .vint _, .vbytes _ => by simp [Value.beq]
  | .vint _, .vdict _ => by simp [Value.beq]
  | .vfloat _, .vnone => by simp [Value.beq]
  | .vfloat _, .vbool _ => by simp [Value.beq]
  | .vfloat _, .vint _ => by simp [Value.beq]
  | .vfloat _, .vstr _ => by simp [Value.beq]
  | .vfloat _, .vdatetime _ => by simp [Value.beq]
  | .vfloat _, .vbytes _ => by simp [Value.beq]
  | .vfloat _, .vdict _ => by simp [Value.beq]
  | .vstr _, .vnone => by simp [Value.beq]
  | .vstr _, .vbool _ => by simp [Value.beq]
  | .vstr _, .vint _ => by simp [Value.beq]
  | .vstr _, .vfloat _ => by simp [Value.beq]
  | .vstr _, .vdatetime _ => by simp [Value.beq]
  | .vstr _, .vbytes _ => by simp [Value.beq]
  | .vstr _, .vdict _ => by simp [Value.beq]
  | .vdatetime _, .vnone => by simp [Value.beq]
  | .vdatetime _, .vbool _ => by simp [Value.beq]
  | .vdatetime _, .vint _ => by simp [Value.beq]
  | .vdatetime _, .vfloat _ => by simp [Value.beq]
  | .vdatetime _, .vstr _ => by simp [Value.beq]
  | .vdatetime _, .vbytes _ => by simp [Value.beq]
  | .vdatetime _, .vdict _ => by simp [Value.beq]
  | .vbytes _, .vnone => by simp [Value.beq]
  | .vbytes _, .vbool _ => by simp [Value.beq]
  | .vbytes _, .vint _ => by simp [Value.beq]
  | .vbytes _, .vfloat _ => by simp [Value.beq]
  | .vbytes _, .vstr _ => by simp [Value.beq]
  | .vbytes _, .vdatetime _ => by simp [Value.beq]
  | .vbytes _, .vdict _ => by simp [Value.beq]
  | .vdict _, .vnone => by simp [Value.beq]
  | .vdict _, .vbool _ => by simp [Value.beq]
  | .vdict _, .vint _ => by simp [Value.beq]
  | .vdict _, .vfloat _ => by simp [Value.beq]
  | .vdict _, .vstr _ => by simp [Value.beq]
  | .vdict _, .vdatetime _ => by simp [Value.beq]
  | .vdict _, .vbytes _ => by simp [Value.beq]

theorem Value.beqEntries_iff :
    ∀ xs ys : List (String × Value), Value.beqEntries xs ys = true ↔ xs = ys
  | [], [] => by simp [Value.beqEntries]
  | [], _ :: _ => by simp [Value.beqEntries]
  | _ :: _, [] => by simp [Value.beqEntries]
  | (k1, v1) :: r1, (k2, v2) :: r2 => by
      simp only [Value.beqEntries, Bool.and_eq_true, beq_iff_eq]
      rw [Value.beq_iff v1 v2, Value.beqEntries_iff r1 r2]
      constructor
      · rintro ⟨⟨h1, h2⟩, h3⟩; rw [h1, h2, h3]
      · intro h
        injection h with h1 h2
        injection h1 with h3 h4
        exact ⟨⟨h3, h4⟩, h2⟩

end

instance : DecidableEq Value := fun a b => decidable_of_iff _ (Value.beq_iff a b)

/-! ## Association-list lookup (Python dict access) -/

/-- Lookup of the first entry with the given key, as dict access in Python
(dict keys are unique, so first is the entry). -/
def alookup {β : Type} (k : String) : List (String × β) → Option β
  | [] => none
  | p :: rest => if p.1 = k then some p.2 else alookup k rest

/-! ## Value codec (_serialize_value and _deserialize_value) -/

/-- Embedding of _serialize_value (core.py): null and scalars pass through,
datetime becomes the isoformat string, bytes become the tagged base64
object. -/
def _serialize_value : Value → Value
  | .vnone => .vnone
  | .vdatetime t => .vstr (isoformat t)
  | .vbytes bs =>
      .vdict [("__type__", .vstr "bytes"), ("data", .vstr (String.mk (b64encode bs)))]
  | v => v

/-- ASCII lowercase of one character, as str.lower acts on the ASCII column
type names the engine sees. -/
def lowerChar (c : Char) : Char :=
  if 65 ≤ c.toNat ∧ c.toNat ≤ 90 then Char.ofNat (c.toNat + 32) else c

/-- Test that the first list is an initial segment of the second. -/
def startsWithChars : List Char → List Char → Bool
  | [], _ => true
  | _ :: _, [] => false
  | p :: ps, c :: cs => p = c && startsWithChars ps cs

/-- Containment of a character sequence, the Python in operator on
strings. -/
def containsSeq (needle : List Char) : List Char → Bool
  | [] => startsWithChars needle []
  | c :: cs => startsWithChars needle (c :: cs) || containsSeq needle cs

/-- Truthiness-and-substring test of the source line
column_type and "timestamp" in column_type.lower(). -/
def tsHint : Option String → Bool
  | none => false
  | some h => h ≠ "" && containsSeq "timestamp".data (h.data.map lowerChar)

/-- Embedding of _deserialize_value (core.py).  A dict tagged as bytes is
decoded (a missing data key is the KeyError the subscript raises, a non-string
data value is the TypeError b64decode raises); a string under a
timestamp-like column hint is parsed with fromisoformat, keeping the string
when parsing fails (the caught ValueError); everything else passes
through. -/
def _deserialize_value (value : Value) (column_type : Option String) :
    Except Err Value :=
  match value with
  | .vnone => .ok .vnone
  | .vdict entries =>
      if alookup "__type__" entries = some (.vstr "bytes") then
        match alookup "data" entries with
        | some (.vstr s) =>
            match b64decode s.data with
            | .ok bs => .ok (.vbytes bs)
            | .error e => .error e
        | some _ => .error .typeError
        | none => .error .keyError
      else .ok (.vdict entries)
  | .vstr s =>
      if tsHint column_type then
        match fromisoformat s with
        | some t => .ok (.vdatetime t)
        | none => .ok (.vstr s)
      else .ok (.vstr s)
  | v => .ok v

/-- Supported scalar cell shapes of the codec contract: everything except the
dict shape (which only appears as the codec's own tagged encoding), with
bytes restricted to byte values and datetimes to values the datetime
constructor accepts. -/
def isSupportedCell : Value → Bool
  | .vdict _ => false
  | .vbytes bs => bs.all (fun x => x < 256)
  | .vdatetime t => validTimestamp t
  | _ => true

/-- Test of the source condition
isinstance(value, dict) and value.get("__type__") == "bytes". -/
def isTaggedBytes : Value → Bool
  | .vdict entries => alookup "__type__" entries = some (.vstr "bytes")
  | _ => false

/-- C2: for every supported cell value (null, boolean, integer, float,
string, timestamp, binary blob), decoding the encoded form gives the value
back, where a timestamp value is decoded under a column-type hint containing
"timestamp" and every other value is decoded without a hint. -/
theorem serialize_roundtrip (v : Value) (hint : String)
    (hv : isSupportedCell v = true) (hh : tsHint (some hint) = true) :
    _deserialize_value (_serialize_value v)
      (match v with | .vdatetime _ => some hint | _ => none) = .ok v := by
  match v with
  | .vnone => rfl
  | .vbool b => rfl
  | .vint n => rfl
  | .vfloat x => rfl
  | .vstr s => simp [_serialize_value, _deserialize_value, tsHint]
  | .vdatetime t =>
      simp only [isSupportedCell] at hv
      simp only [_serialize_value, _deserialize_value, hh, if_true]
      rw [show fromisoformat (isoformat t) = some t from
        fromisoformatChars_isoChars t hv]
  | .vbytes bs =>
      simp only [isSupportedCell, List.all_eq_true, decide_eq_true_eq] at hv
      have hdata : (String.mk (b64encode bs)).data = b64encode bs := rfl
      have hb := b64decode_b64encode bs hv
      simp [_serialize_value, _deserialize_value, alookup, hdata, hb]
  | .vdict entries => simp [isSupportedCell] at hv

/-- Witness for C2: the round trip evaluated on one concrete value of each
supported type. -/
theorem serialize_roundtrip_witness :
    (isSupportedCell .vnone = true ∧
      _deserialize_value (_serialize_value .vnone) none = .ok .vnone) ∧
    (isSupportedCell (.vbool true) = true ∧
      _deserialize_value (_serialize_value (.vbool true)) none = .ok (.vbool true)) ∧
    (isSupportedCell (.vint (-5)) = true ∧
      _deserialize_value (_serialize_value (.vint (-5))) none = .ok (.vint (-5))) ∧
    (isSupportedCell (.vfloat 4614253070214989087) = true ∧
      _deserialize_value (_serialize_value (.vfloat 4614253070214989087)) none =
        .ok (.vfloat 4614253070214989087)) ∧
    (isSupportedCell (.vstr "hello") = true ∧
      _deserialize_value (_serialize_value (.vstr "hello")) none =
        .ok (.vstr "hello")) ∧
    (isSupportedCell (.vdatetime ⟨2024, 5, 6, 7, 8, 9, 123456, some (-90)⟩) = true ∧
      tsHint (some "timestamp with time zone") = true ∧
      _deserialize_value
        (_serialize_value (.vdatetime ⟨2024, 5, 6, 7, 8, 9, 123456, some (-90)⟩))
        (some "timestamp with time zone") =
        .ok (.vdatetime ⟨2024, 5, 6, 7, 8, 9, 123456, some (-90)⟩)) ∧
    (isSupportedCell (.vbytes [0, 1, 77, 254, 255]) = true ∧
      _deserialize_value (_serialize_value (.vbytes [0, 1, 77, 254, 255])) none =
        .ok (.vbytes [0, 1, 77, 254, 255])) :=
  ⟨⟨by decide, serialize_roundtrip .vnone "timestamp" (by decide) (by decide)⟩,
   ⟨by decide, serialize_roundtrip (.vbool true) "timestamp" (by decide) (by decide)⟩,
   ⟨by decide, serialize_roundtrip (.vint (-5)) "timestamp" (by decide) (by decide)⟩,
   ⟨by decide,
    serialize_roundtrip (.vfloat 4614253070214989087) "timestamp" (by decide)
      (by decide)⟩,
   ⟨by decide, serialize_roundtrip (.vstr "hello") "timestamp" (by decide) (by decide)⟩,
   ⟨by decide, by decide,
    serialize_roundtrip (.vdatetime ⟨2024, 5, 6, 7, 8, 9, 123456, some (-90)⟩)
      "timestamp with time zone" (by decide) (by decide)⟩,
   ⟨by decide,
    serialize_roundtrip (.vbytes [0, 1, 77, 254, 255]) "timestamp" (by decide)
      (by decide)⟩⟩

/-- Decidable equality of Except results, for evaluating the embedding on
concrete inputs. -/
def exceptDecEq {e a : Type} [DecidableEq e] [DecidableEq a] :
    (x y : Except e a) → Decidable (x = y)
  | .ok v, .ok w =>
      if h : v = w then .isTrue (by rw [h]) else
        .isFalse (fun hx => h (Except.ok.inj hx))
  | .error v, .error w =>
      if h : v = w then .isTrue (by rw [h]) else
        .isFalse (fun hx => h (Except.error.inj hx))
  | .ok _, .error _ => .isFalse (fun hx => Except.noConfusion hx)
  | .error _, .ok _ => .isFalse (fun hx => Except.noConfusion hx)

instance {e a : Type} [DecidableEq e] [DecidableEq a] : DecidableEq (Except e a) :=
  exceptDecEq

/-- C7 counterexample: a dict tagged as bytes but lacking the data field does
not pass through unchanged; the subscript raises KeyError, so
_deserialize_value can throw, contradicting the claim as stated. -/
theorem deserialize_missing_data_raises :
    _deserialize_value (.vdict [("__type__", .vstr "bytes")]) none =
      .error .keyError := by decide

/-- C7 as amended: _deserialize_value never throws for a value that is not a
dict tagged as bytes; such a value passes through unchanged, except a string
under a timestamp-like hint that parses as ISO-8601, which becomes the parsed
timestamp.  (A dict tagged as bytes with a missing data field raises
KeyError; one with malformed base64 data raises a decoding error.) -/
theorem deserialize_total_untagged (v : Value) (hint : Option String)
    (h : isTaggedBytes v = false) :
    (_deserialize_value v hint).isOk = true ∧
    (_deserialize_value v hint = .ok v ∨
      ∃ s t, v = .vstr s ∧ tsHint hint = true ∧ fromisoformat s = some t ∧
        _deserialize_value v hint = .ok (.vdatetime t)) := by
  match v with
  | .vnone => exact ⟨rfl, .inl rfl⟩
  | .vbool b => exact ⟨rfl, .inl rfl⟩
  | .vint n => exact ⟨rfl, .inl rfl⟩
  | .vfloat x => exact ⟨rfl, .inl rfl⟩
  | .vdatetime t => exact ⟨rfl, .inl rfl⟩
  | .vbytes bs => exact ⟨rfl, .inl rfl⟩
  | .vdict entries =>
      simp only [isTaggedBytes, decide_eq_false_iff_not] at h
      have he : _deserialize_value (.vdict entries) hint = .ok (.vdict entries) := by
        simp only [_deserialize_value, if_neg h]
      rw [he]
      exact ⟨rfl, .inl rfl⟩
  | .vstr s =>
      by_cases hts : tsHint hint = true
      · rcases hfi : fromisoformat s with _ | t
        · have he : _deserialize_value (.vstr s) hint = .ok (.vstr s) := by
            simp [_deserialize_value, hts, hfi]
          rw [he]
          exact ⟨rfl, .inl rfl⟩
        · have he : _deserialize_value (.vstr s) hint = .ok (.vdatetime t) := by
            simp [_deserialize_value, hts, hfi]
          rw [he]
          exact ⟨rfl, .inr ⟨s, t, rfl, hts, hfi, rfl⟩⟩
      · have he : _deserialize_value (.vstr s) hint = .ok (.vstr s) := by
          rw [Bool.not_eq_true] at hts
          simp [_deserialize_value, hts]
        rw [he]
        exact ⟨rfl, .inl rfl⟩

/-- Witness for C7 as amended: a malformed near-miss of the tagged shape
(tag present but not the string "bytes") passes through unchanged without
throwing. -/
theorem deserialize_total_untagged_witness :
    isTaggedBytes (.vdict [("__type__", .vstr "str")]) = false ∧
    ((_deserialize_value (.vdict [("__type__", .vstr "str")]) none).isOk = true ∧
      (_deserialize_value (.vdict [("__type__", .vstr "str")]) none =
          .ok (.vdict [("__type__", .vstr "str")]) ∨
        ∃ s t, (Value.vdict [("__type__", .vstr "str")]) = .vstr s ∧
          tsHint none = true ∧ fromisoformat s = some t ∧
          _deserialize_value (.vdict [("__type__", .vstr "str")]) none =
            .ok (.vdatetime t))) :=
  ⟨by decide, deserialize_total_untagged (.vdict [("__type__", .vstr "str")]) none
    (by decide)⟩

/-! ## Backup data model (models.py) -/

/-- Embedding of BackupMetadata (models.py). -/
structure BackupMetadata where
  version : String
  timestamp : Timestamp
  migration_version : String
  database_name : String
  database_host : String
deriving DecidableEq, Repr

/-- Embedding of TableBackup (models.py): row count, ordered column names and
the rows, each an ordered list of serialized cell values. -/
structure TableBackup where
  row_count : Int
  columns : List String
  data : List (List Value)
deriving DecidableEq, Repr

/-- Embedding of BackupData (models.py): metadata plus the tables dict in
insertion order (keys unique for dicts parsed from JSON). -/
structure BackupData where
  metadata : BackupMetadata
  tables : List (String × TableBackup)
deriving DecidableEq, Repr

/-- Embedding of TableDiff (models.py). -/
structure TableDiff where
  current_rows : Int
  backup_rows : Int
  diff : Int
deriving DecidableEq, Repr

/-- Embedding of DiffSummary (models.py). -/
structure DiffSummary where
  tables : List (String × TableDiff)
  total_current_rows : Int
  total_backup_rows : Int
  total_diff : Int
deriving DecidableEq, Repr

/-- Embedding of RestoreResult (models.py). -/
structure RestoreResult where
  success : Bool
  message : String
  diff_summary : Option DiffSummary
  restored_tables : Nat
  restored_rows : Int
deriving DecidableEq, Repr

/-! ## Live database state

A database state is the list of live tables in catalog order, each with its
rows; a row is a column-name to value mapping.  The alembic_version table is
an ordinary entry of this list, exactly as it is an ordinary table for
inspector.get_table_names(). -/

/-- Row of a live table. -/
abbrev Row := List (String × Value)

/-- State of the live database. -/
structure DBState where
  tables : List (String × List Row)
deriving DecidableEq, Repr

/-- Names reported by inspector.get_table_names(). -/
def liveTableNames (db : DBState) : List String := db.tables.map Prod.fst

/-- Rows of one table (none when reflection of the table fails because it
does not exist, the NoSuchTableError case). -/
def lookupTable (db : DBState) (t : String) : Option (List Row) :=
  alookup t db.tables

/-- Replace the rows of one table, keeping catalog order. -/
def setTableRows (db : DBState) (t : String) (rows : List Row) : DBState :=
  ⟨db.tables.map (fun p => if p.1 = t then (p.1, rows) else p)⟩

/-- Rendering of str() on the scalar shapes stored in alembic_version. -/
def pyStr : Value → String
  | .vstr s => s
  | .vint n => toString n
  | .vbool b => if b then "True" else "False"
  | .vnone => "None"
  | _ => ""

/-- Embedding of get_current_migration_version (core.py): select version_num
from alembic_version on a fresh connection, first row or empty string; any
failure is wrapped in a RuntimeError.  The fresh connection reads the
committed state, so inside the restore transaction this sees the pre-restore
database. -/
def get_current_migration_version (db : DBState) : Except Err String :=
  match lookupTable db "alembic_version" with
  | none => .error (.runtimeError (.noSuchTable "alembic_version"))
  | some [] => .ok ""
  | some (r :: _) =>
      match alookup "version_num" r with
      | some v => .ok (pyStr v)
      | none => .error (.runtimeError (.opError "version_num"))

/-! ## Restore executor (restore_backup, core.py) -/

/-- Step 1 of the restore transaction: delete all rows of every live table
except alembic_version, in catalog order. -/
def truncateAll (db : DBState) : DBState :=
  ⟨db.tables.map (fun p => if p.1 = "alembic_version" then p else (p.1, []))⟩

/-- Step 2 of the restore transaction: compare the snapshot revision against
get_current_migration_version() (read over a separate connection, hence from
the pre-transaction state db0) and, when different, rewrite the
alembic_version table inside the transaction (delete-then-insert for a
nonempty target, plain delete for an empty one). -/
def adjustMigrationVersion (target : String) (db0 db : DBState) :
    Except Err DBState :=
  match get_current_migration_version db0 with
  | .error e => .error e
  | .ok current =>
      if target ≠ current then
        if (lookupTable db "alembic_version").isSome then
          if target ≠ "" then
            .ok (setTableRows db "alembic_version" [[("version_num", .vstr target)]])
          else
            .ok (setTableRows db "alembic_version" [])
        else .error (.opError "alembic_version")
      else .ok db

/-- Python dict construction from key-value pairs: first-occurrence key
order, last assignment wins. -/
def pyDict (l : List (String × Value)) : List (String × Value) :=
  l.foldl
    (fun acc kv =>
      if (alookup kv.1 acc).isSome then
        acc.map (fun p => if p.1 = kv.1 then (p.1, kv.2) else p)
      else acc ++ [kv])
    []

/-- Mapping of a fallible function over a list, failing at the first error
(the semantics of a Python loop or comprehension over fallible steps). -/
def mapExcept {a b : Type} (f : a → Except Err b) : List a → Except Err (List b)
  | [] => .ok []
  | x :: rest =>
      match f x with
      | .error e => .error e
      | .ok y =>
          match mapExcept f rest with
          | .error e => .error e
          | .ok ys => .ok (y :: ys)

/-- Decoding of one snapshot row during restore: dict(zip(columns, row)),
then each value through _deserialize_value with no column-type hint. -/
def decodeRow (columns : List String) (row : List Value) : Except Err Row :=
  mapExcept
    (fun kv =>
      match _deserialize_value kv.2 none with
      | .ok w => .ok (kv.1, w)
      | .error e => .error e)
    (pyDict (columns.zip row))

/-- Step 3 of the restore transaction: for every snapshot table with nonzero
row_count, reflect the live table (NoSuchTableError when absent), decode each
row and insert it, accumulating restored-table and restored-row counters
(the row counter adds the snapshot row_count field, as the source does). -/
def reinsertAll (db : DBState) :
    List (String × TableBackup) → Except Err (DBState × Nat × Int)
  | [] => .ok (db, 0, 0)
  | (name, tb) :: rest =>
      if tb.row_count = 0 then reinsertAll db rest
      else
        match lookupTable db name with
        | none => .error (.noSuchTable name)
        | some cur =>
            match mapExcept (decodeRow tb.columns) tb.data with
            | .error e => .error e
            | .ok newRows =>
                match reinsertAll (setTableRows db name (cur ++ newRows)) rest with
                | .error e => .error e
                | .ok (db2, nt, nr) => .ok (db2, nt + 1, nr + tb.row_count)

/-- Body of the with engine.begin() block: truncate, adjust the revision,
reinsert. -/
def restoreTransaction (bd : BackupData) (db0 : DBState) :
    Except Err (DBState × Nat × Int) :=
  match adjustMigrationVersion bd.metadata.migration_version db0 (truncateAll db0) with
  | .error e => .error e
  | .ok db2 => reinsertAll db2 bd.tables

/-! ## Diff calculator (calculate_diff, core.py) -/

/-- Answers of the live database to the diff calculator's queries: the
catalog listing and the per-table count query.  A count that returns an error
models the query failing (for instance the table being dropped between the
catalog listing and the count). -/
structure Catalog where
  liveNames : List String
  countOf : String → Except Err Int

/-- Catalog of a quiescent database state: the listing is the table list and
every count query returns the row count. -/
def Catalog.ofDB (db : DBState) : Catalog where
  liveNames := liveTableNames db
  countOf := fun t =>
    match lookupTable db t with
    | some rows => .ok (rows.length : Int)
    | none => .error (.noSuchTable t)

/-- First loop of calculate_diff: for every snapshot table, count live rows
(zero when the catalog does not list the table) and record
TableDiff(current, backup, backup - current), accumulating both totals. -/
def diffSnapshotLoop (cat : Catalog) :
    List (String × TableBackup) → Except Err (List (String × TableDiff) × Int × Int)
  | [] => .ok ([], 0, 0)
  | (name, tb) :: rest =>
      match
        (if name ∈ cat.liveNames then cat.countOf name else .ok 0 :
          Except Err Int) with
      | .error e => .error e
      | .ok current =>
          match diffSnapshotLoop cat rest with
          | .error e => .error e
          | .ok (l, tc, tbk) =>
              .ok ((name, ⟨current, tb.row_count, tb.row_count - current⟩) :: l,
                tc + current, tbk + tb.row_count)

/-- Live tables absent from the snapshot, excluding alembic_version; the
source iterates a Python set, whose order is arbitrary, modelled by dedup
order. -/
def liveOnlyNames (cat : Catalog) (backupNames : List String) : List String :=
  (cat.liveNames.filter
    (fun t => !(decide (t ∈ backupNames)) && t ≠ "alembic_version")).dedup

/-- Second loop of calculate_diff: every live-only table is recorded as
TableDiff(current, 0, -current). -/
def diffLiveLoop (cat : Catalog) :
    List String → Except Err (List (String × TableDiff) × Int)
  | [] => .ok ([], 0)
  | t :: rest =>
      match cat.countOf t with
      | .error e => .error e
      | .ok current =>
          match diffLiveLoop cat rest with
          | .error e => .error e
          | .ok (l, tc) => .ok ((t, ⟨current, 0, -current⟩) :: l, tc + current)

/-- Body of the try block of calculate_diff: load the snapshot, run both
loops, assemble the summary with the aggregate totals. -/
def calculate_diff_body (load : Except Err BackupData) (cat : Catalog) :
    Except Err DiffSummary :=
  match load with
  | .error e => .error e
  | .ok bd =>
      match diffSnapshotLoop cat bd.tables with
      | .error e => .error e
      | .ok (l1, tc1, tb1) =>
          match diffLiveLoop cat (liveOnlyNames cat (bd.tables.map Prod.fst)) with
          | .error e => .error e
          | .ok (l2, tc2) =>
              .ok ⟨l1 ++ l2, tc1 + tc2, tb1, tb1 - (tc1 + tc2)⟩

/-- Embedding of calculate_diff (core.py).  The load argument is the result
of reading and parsing the snapshot file; any exception of the body is
wrapped in a RuntimeError. -/
def calculate_diff (load : Except Err BackupData) (cat : Catalog) :
    Except Err DiffSummary :=
  match calculate_diff_body load cat with
  | .ok ds => .ok ds
  | .error e => .error (.runtimeError e)

/-! ## restore_backup (core.py) -/

/-- Exception text used in the message fields of the results. -/
def errMsg : Err → String
  | .fileNotFound => "Backup file not found"
  | .keyError => "KeyError"
  | .typeError => "TypeError"
  | .binasciiError => "binascii.Error"
  | .noSuchTable t => "NoSuchTableError: " ++ t
  | .opError m => "OperationalError: " ++ m
  | .runtimeError e => "RuntimeError: " ++ errMsg e

/-- Optional diff step of restore_backup: when show_diff is set, compute the
pre-restore DiffSummary, propagating its failure. -/
def restoreDiffStep (load : Except Err BackupData) (show_diff : Bool)
    (db0 : DBState) : Except Err (Option DiffSummary) :=
  if show_diff then
    match calculate_diff load (Catalog.ofDB db0) with
    | .error e => .error e
    | .ok ds => .ok (some ds)
  else .ok none

/-- Embedding of restore_backup (core.py).  The load argument is the result
of reading and parsing the snapshot file (deterministic per path, so the
re-read inside calculate_diff yields the same value).  The function returns
the RestoreResult together with the database state after the call: the state
produced by the transaction body on commit, and the unchanged input state
when any step fails (the rollback of the context manager).  Every failure is
caught and reported as a RestoreResult with success false, the counters zero
and the message carrying the cause. -/
def restore_backup (load : Except Err BackupData) (show_diff : Bool)
    (db0 : DBState) : RestoreResult × DBState :=
  match load with
  | .error e =>
      (⟨false, "Restore failed: " ++ errMsg e, none, 0, 0⟩, db0)
  | .ok bd =>
      match restoreDiffStep load show_diff db0 with
      | .error e =>
          (⟨false, "Restore failed: " ++ errMsg e, none, 0, 0⟩, db0)
      | .ok ds =>
          match restoreTransaction bd db0 with
          | .error e =>
              (⟨false, "Restore failed: " ++ errMsg e, ds, 0, 0⟩, db0)
          | .ok (db1, nt, nr) =>
              (⟨true,
                "Restored " ++ toString nt ++ " tables with " ++ toString nr ++
                  " rows", ds, nt, nr⟩, db1)

/-! ## C1 and C3: rollback atomicity and failure reporting -/

/-- C1: whenever restore_backup reports failure, the database state after the
call is exactly the pre-restore state: the single transaction was rolled back
in full, and no partial truncation or reinsertion is observable.  (Failure of
any step inside the transaction, truncation, revision adjustment or
reinsertion, takes the error branch, which discards the transformed state.) -/
theorem restore_rollback_atomic (load : Except Err BackupData) (sd : Bool)
    (db0 : DBState)
    (h : (restore_backup load sd db0).1.success = false) :
    (restore_backup load sd db0).2 = db0 := by
  rcases load with e | bd
  · rfl
  · simp only [restore_backup] at h ⊢
    cases hds : restoreDiffStep (.ok bd) sd db0 with
    | error e => simp [hds]
    | ok ds =>
        cases htx : restoreTransaction bd db0 with
        | error e => simp [hds, htx]
        | ok trip =>
            obtain ⟨db1, nt, nr⟩ := trip
            rw [hds, htx] at h
            simp at h

/-- Snapshot whose only table no longer exists live, used to exercise a
mid-transaction failure. -/
def bdGhost : BackupData :=
  ⟨⟨"1.0", ⟨2024, 1, 1, 0, 0, 0, 0, none⟩, "abc", "app", "db"⟩,
   [("ghost", ⟨1, ["x"], [[.vint 1]]⟩)]⟩

/-- Live state without the ghost table. -/
def dbGhost : DBState :=
  ⟨[("alembic_version", [[("version_num", .vstr "abc")]]),
    ("users", [[("id", .vint 1)]])]⟩

/-- Witness for C1: restoring a snapshot whose table was dropped live fails
mid-transaction (after the truncation phase) and leaves the database exactly
as before. -/
theorem restore_rollback_atomic_witness :
    (restore_backup (.ok bdGhost) false dbGhost).1.success = false ∧
    (restore_backup (.ok bdGhost) false dbGhost).2 = dbGhost :=
  ⟨by decide, restore_rollback_atomic (.ok bdGhost) false dbGhost (by decide)⟩

/-- C3: restore_backup is a total function (by construction it returns a
RestoreResult for every input instead of propagating an exception), and
whenever it reports failure the counters are zero and the message carries the
cause prefixed with "Restore failed: ". -/
theorem restore_failure_result (load : Except Err BackupData) (sd : Bool)
    (db0 : DBState)
    (h : (restore_backup load sd db0).1.success = false) :
    (restore_backup load sd db0).1.restored_tables = 0 ∧
    (restore_backup load sd db0).1.restored_rows = 0 ∧
    ∃ e, (restore_backup load sd db0).1.message = "Restore failed: " ++ errMsg e := by
  rcases load with e | bd
  · exact ⟨rfl, rfl, e, rfl⟩
  · simp only [restore_backup] at h ⊢
    cases hds : restoreDiffStep (.ok bd) sd db0 with
    | error e => exact ⟨rfl, rfl, e, rfl⟩
    | ok ds =>
        cases htx : restoreTransaction bd db0 with
        | error e => exact ⟨rfl, rfl, e, rfl⟩
        | ok trip =>
            obtain ⟨db1, nt, nr⟩ := trip
            rw [hds, htx] at h
            simp at h

/-- Witness for C3: a missing snapshot file yields a failure result with zero
counters and a message carrying the cause. -/
theorem restore_failure_result_witness :
    (restore_backup (.error .fileNotFound) true ⟨[]⟩).1.success = false ∧
    ((restore_backup (.error .fileNotFound) true ⟨[]⟩).1.restored_tables = 0 ∧
      (restore_backup (.error .fileNotFound) true ⟨[]⟩).1.restored_rows = 0 ∧
      ∃ e, (restore_backup (.error .fileNotFound) true ⟨[]⟩).1.message =
        "Restore failed: " ++ errMsg e) :=
  ⟨by decide, restore_failure_result (.error .fileNotFound) true ⟨[]⟩ (by decide)⟩

/-! ## C4: full truncation before reinsertion -/

theorem alookup_set_ne (l : List (String × List Row)) (name : String)
    (rows : List Row) (t : String) (h : name ≠ t) :
    alookup t (l.map (fun p => if p.1 = name then (p.1, rows) else p)) =
      alookup t l := by
  induction l with
  | nil => rfl
  | cons p rest ih =>
      obtain ⟨a, b⟩ := p
      simp only [List.map_cons, alookup]
      by_cases hp : a = name
      · subst hp
        have hat : ¬ a = t := h
        simp [hat, ih]
      · simp [hp, ih]

theorem lookupTable_set_ne (db : DBState) (name : String) (rows : List Row)
    (t : String) (h : name ≠ t) :
    lookupTable (setTableRows db name rows) t = lookupTable db t := by
  obtain ⟨l⟩ := db
  simp only [lookupTable, setTableRows]
  exact alookup_set_ne l name rows t h

/-- Truncation wipes every live table except alembic_version. -/
theorem truncateAll_lookup (db : DBState) (t : String)
    (ht : t ∈ liveTableNames db) (hne : t ≠ "alembic_version") :
    lookupTable (truncateAll db) t = some [] := by
  obtain ⟨l⟩ := db
  simp only [liveTableNames] at ht
  simp only [lookupTable, truncateAll]
  induction l with
  | nil => simp at ht
  | cons p rest ih =>
      obtain ⟨a, b⟩ := p
      simp only [List.map_cons, List.mem_cons] at ht
      simp only [List.map_cons, alookup]
      by_cases hpt : a = t
      · subst hpt
        have hav : ¬ a = "alembic_version" := hne
        simp [hav]
      · rcases ht with h1 | h1
        · exact absurd h1.symm hpt
        · have hne2 : ¬ "alembic_version" = t := fun hx => hne hx.symm
          by_cases hav : a = "alembic_version"
          · simp [hav, hpt, ih h1, hne2]
          · simp [hav, hpt, ih h1, hne2]

/-- Reinsertion touches only snapshot tables. -/
theorem reinsertAll_preserves :
    ∀ (l : List (String × TableBackup)) (db db' : DBState) (nt : Nat) (nr : Int),
      reinsertAll db l = .ok (db', nt, nr) →
      ∀ t, t ∉ l.map Prod.fst → lookupTable db' t = lookupTable db t := by
  intro l
  induction l with
  | nil =>
      intro db db' nt nr h t ht
      simp only [reinsertAll, Except.ok.injEq, Prod.mk.injEq] at h
      rw [← h.1]
  | cons p rest ih =>
      obtain ⟨name, tb⟩ := p
      intro db db' nt nr h t ht
      simp only [List.map_cons, List.mem_cons, not_or] at ht
      obtain ⟨htn, htr⟩ := ht
      simp only [reinsertAll] at h
      split at h
      · exact ih db db' nt nr h t htr
      · split at h
        · exact Except.noConfusion h
        · next cur hcur =>
            split at h
            · exact Except.noConfusion h
            · next newRows hnew =>
                split at h
                · exact Except.noConfusion h
                · next db2 nt2 nr2 htrip =>
                    simp only [Except.ok.injEq, Prod.mk.injEq] at h
                    rw [← h.1]
                    rw [ih _ db2 nt2 nr2 htrip t htr]
                    exact lookupTable_set_ne db name (cur ++ newRows) t
                      (fun hx => htn hx.symm)

/-- The revision adjustment touches only alembic_version. -/
theorem adjust_preserves_ne (target : String) (db0 db db2 : DBState)
    (h : adjustMigrationVersion target db0 db = .ok db2) (t : String)
    (ht : t ≠ "alembic_version") :
    lookupTable db2 t = lookupTable db t := by
  simp only [adjustMigrationVersion] at h
  split at h
  · exact Except.noConfusion h
  · split at h
    · split at h
      · split at h
        · simp only [Except.ok.injEq] at h
          rw [← h]
          exact lookupTable_set_ne db "alembic_version" _ t (fun hx => ht hx.symm)
        · simp only [Except.ok.injEq] at h
          rw [← h]
          exact lookupTable_set_ne db "alembic_version" _ t (fun hx => ht hx.symm)
      · exact Except.noConfusion h
    · simp only [Except.ok.injEq] at h
      rw [← h]

/-- C4: during restore, the truncation phase deletes all rows of every live
table except alembic_version before reinsertion begins, and on a successful
restore a live table absent from the snapshot ends up empty: it was wiped
with nothing reinserted into it. -/
theorem restore_truncates_every_live_table (db0 : DBState) (sd : Bool)
    (bd : BackupData) (r : RestoreResult) (db' : DBState)
    (hrun : restore_backup (.ok bd) sd db0 = (r, db'))
    (hsucc : r.success = true) :
    (∀ t ∈ liveTableNames db0, t ≠ "alembic_version" →
        lookupTable (truncateAll db0) t = some []) ∧
    (∀ t ∈ liveTableNames db0, t ≠ "alembic_version" →
        t ∉ bd.tables.map Prod.fst → lookupTable db' t = some []) := by
  constructor
  · intro t ht hne
    exact truncateAll_lookup db0 t ht hne
  · intro t ht hne hsnap
    simp only [restore_backup] at hrun
    cases hds : restoreDiffStep (.ok bd) sd db0 with
    | error e =>
        rw [hds] at hrun
        injection hrun with h1 h2
        rw [← h1] at hsucc
        simp at hsucc
    | ok ds =>
        cases htx : restoreTransaction bd db0 with
        | error e =>
            rw [hds, htx] at hrun
            injection hrun with h1 h2
            rw [← h1] at hsucc
            simp at hsucc
        | ok trip =>
            obtain ⟨db1, nt, nr⟩ := trip
            rw [hds, htx] at hrun
            injection hrun with h1 h2
            rw [← h2]
            simp only [restoreTransaction] at htx
            cases hadj : adjustMigrationVersion bd.metadata.migration_version db0
                (truncateAll db0) with
            | error e => rw [hadj] at htx; exact Except.noConfusion htx
            | ok db2 =>
                rw [hadj] at htx
                rw [reinsertAll_preserves bd.tables db2 db1 nt nr htx t hsnap]
                rw [adjust_preserves_ne _ _ _ _ hadj t hne]
                exact truncateAll_lookup db0 t ht hne

/-- Snapshot and live state for the C4 witness: the live extra table is
absent from the snapshot and is wiped by a successful restore. -/
def bdSmall : BackupData :=
  ⟨⟨"1.0", ⟨2024, 1, 1, 0, 0, 0, 0, none⟩, "r1", "app", "db"⟩,
   [("t", ⟨1, ["x"], [[.vint 7]]⟩)]⟩

/-- Live state with an extra table for the C4 witness. -/
def dbSmall : DBState :=
  ⟨[("alembic_version", [[("version_num", .vstr "r1")]]),
    ("t", [[("x", .vint 1)], [("x", .vint 2)]]),
    ("extra", [[("y", .vint 5)]])]⟩

/-- Witness for C4: a successful restore of a snapshot without the extra
table leaves the extra table empty, and the truncation phase empties it. -/
theorem restore_truncates_every_live_table_witness :
    (restore_backup (.ok bdSmall) false dbSmall).1.success = true ∧
    lookupTable (truncateAll dbSmall) "extra" = some [] ∧
    lookupTable (restore_backup (.ok bdSmall) false dbSmall).2 "extra" = some [] := by
  refine ⟨by decide, ?_, ?_⟩
  · exact (restore_truncates_every_live_table dbSmall false bdSmall
      (restore_backup (.ok bdSmall) false dbSmall).1
      (restore_backup (.ok bdSmall) false dbSmall).2 rfl (by decide)).1
      "extra" (by decide) (by decide)
  · exact (restore_truncates_every_live_table dbSmall false bdSmall
      (restore_backup (.ok bdSmall) false dbSmall).1
      (restore_backup (.ok bdSmall) false dbSmall).2 rfl (by decide)).2
      "extra" (by decide) (by decide) (by decide)

/-! ## C5 and C6: diff calculator -/

/-- Current-row count recorded for a snapshot table: the live count when the
catalog lists the table, zero otherwise. -/
def snapCurrent (cat : Catalog) (cnt : String → Int) (t : String) : Int :=
  if t ∈ cat.liveNames then cnt t else 0

theorem diffSnapshotLoop_eq (cat : Catalog) (cnt : String → Int)
    (hcnt : ∀ t ∈ cat.liveNames, cat.countOf t = .ok (cnt t)) :
    ∀ l, diffSnapshotLoop cat l =
      .ok (l.map (fun p => (p.1, ⟨snapCurrent cat cnt p.1, p.2.row_count,
            p.2.row_count - snapCurrent cat cnt p.1⟩)),
        (l.map (fun p => snapCurrent cat cnt p.1)).sum,
        (l.map (fun p => p.2.row_count)).sum) := by
  intro l
  induction l with
  | nil => rfl
  | cons p rest ih =>
      obtain ⟨name, tb⟩ := p
      simp only [diffSnapshotLoop]
      by_cases hm : name ∈ cat.liveNames
      · rw [if_pos hm, hcnt name hm, ih]
        simp only [List.map_cons, List.sum_cons, snapCurrent, if_pos hm,
          Except.ok.injEq, Prod.mk.injEq]
        exact ⟨trivial, by ring, by ring⟩
      · rw [if_neg hm, ih]
        simp only [List.map_cons, List.sum_cons, snapCurrent, if_neg hm,
          Except.ok.injEq, Prod.mk.injEq]
        exact ⟨trivial, by ring, by ring⟩

theorem diffLiveLoop_eq (cat : Catalog) (cnt : String → Int)
    (hcnt : ∀ t ∈ cat.liveNames, cat.countOf t = .ok (cnt t)) :
    ∀ l, (∀ t ∈ l, t ∈ cat.liveNames) →
      diffLiveLoop cat l =
        .ok (l.map (fun t => (t, ⟨cnt t, 0, -(cnt t)⟩)), (l.map cnt).sum) := by
  intro l
  induction l with
  | nil => intro _; rfl
  | cons t rest ih =>
      intro hl
      simp only [diffLiveLoop]
      rw [hcnt t (hl t (by simp)), ih (fun u hu => hl u (by simp [hu]))]
      simp only [List.map_cons, List.sum_cons, Except.ok.injEq, Prod.mk.injEq]
      exact ⟨trivial, by ring⟩

/-- Membership in the live-only table list. -/
theorem mem_liveOnlyNames (cat : Catalog) (ns : List String) (t : String) :
    t ∈ liveOnlyNames cat ns ↔
      t ∈ cat.liveNames ∧ t ∉ ns ∧ t ≠ "alembic_version" := by
  simp only [liveOnlyNames, List.mem_dedup, List.mem_filter, Bool.and_eq_true,
    Bool.not_eq_true', decide_eq_false_iff_not, decide_eq_true_eq]

/-- Equation for calculate_diff when every live count query succeeds. -/
theorem calculate_diff_eq (bd : BackupData) (cat : Catalog) (cnt : String → Int)
    (hcnt : ∀ t ∈ cat.liveNames, cat.countOf t = .ok (cnt t)) :
    calculate_diff (.ok bd) cat =
      .ok ⟨bd.tables.map (fun p => (p.1, ⟨snapCurrent cat cnt p.1, p.2.row_count,
              p.2.row_count - snapCurrent cat cnt p.1⟩)) ++
            (liveOnlyNames cat (bd.tables.map Prod.fst)).map
              (fun t => (t, ⟨cnt t, 0, -(cnt t)⟩)),
          (bd.tables.map (fun p => snapCurrent cat cnt p.1)).sum +
            ((liveOnlyNames cat (bd.tables.map Prod.fst)).map cnt).sum,
          (bd.tables.map (fun p => p.2.row_count)).sum,
          (bd.tables.map (fun p => p.2.row_count)).sum -
            ((bd.tables.map (fun p => snapCurrent cat cnt p.1)).sum +
              ((liveOnlyNames cat (bd.tables.map Prod.fst)).map cnt).sum)⟩ := by
  have hsub : ∀ t ∈ liveOnlyNames cat (bd.tables.map Prod.fst), t ∈ cat.liveNames :=
    fun t ht => ((mem_liveOnlyNames cat _ t).mp ht).1
  simp only [calculate_diff, calculate_diff_body]
  rw [diffSnapshotLoop_eq cat cnt hcnt, diffLiveLoop_eq cat cnt hcnt _ hsub]

theorem alookup_append {b : Type} (t : String) (l1 l2 : List (String × b)) :
    alookup t (l1 ++ l2) =
      match alookup t l1 with
      | some v => some v
      | none => alookup t l2 := by
  induction l1 with
  | nil => rfl
  | cons p rest ih =>
      simp only [List.cons_append, alookup]
      by_cases hp : p.1 = t
      · simp [hp]
      · simp [hp, ih]

theorem alookup_eq_none {b : Type} (t : String) (l : List (String × b))
    (h : t ∉ l.map Prod.fst) : alookup t l = none := by
  induction l with
  | nil => rfl
  | cons p rest ih =>
      simp only [List.map_cons, List.mem_cons, not_or] at h
      simp only [alookup]
      rw [if_neg (show ¬ p.1 = t from fun hx => h.1 hx.symm)]
      exact ih h.2

theorem alookup_snapDiffMap (cat : Catalog) (cnt : String → Int)
    (l : List (String × TableBackup)) (t : String) :
    alookup t (l.map (fun p => (p.1,
        (⟨snapCurrent cat cnt p.1, p.2.row_count,
          p.2.row_count - snapCurrent cat cnt p.1⟩ : TableDiff)))) =
      (alookup t l).map (fun tb =>
        ⟨snapCurrent cat cnt t, tb.row_count,
          tb.row_count - snapCurrent cat cnt t⟩) := by
  induction l with
  | nil => rfl
  | cons p rest ih =>
      simp only [List.map_cons, alookup]
      by_cases hp : p.1 = t
      · simp [hp]
      · simp [hp, ih]

theorem alookup_map_self {g : Type} (f : String → g) (l : List String)
    (t : String) :
    alookup t (l.map (fun n => (n, f n))) =
      if t ∈ l then some (f t) else none := by
  induction l with
  | nil => rfl
  | cons n rest ih =>
      simp only [List.map_cons, alookup]
      by_cases hp : n = t
      · simp [hp]
      · rw [if_neg hp, ih]
        by_cases ht : t ∈ rest
        · rw [if_pos ht, if_pos (by simp [ht])]
        · rw [if_neg ht, if_neg (show ¬ t ∈ n :: rest from by
            simp only [List.mem_cons, not_or]
            exact ⟨fun hx => hp hx.symm, ht⟩)]

theorem sum_map_zero (l : List String) : (l.map (fun _ => (0 : Int))).sum = 0 := by
  induction l with
  | nil => rfl
  | cons n rest ih => simp [ih]

theorem sum_diff_split (L : List (String × TableDiff))
    (h : ∀ p ∈ L, p.2.diff = p.2.backup_rows - p.2.current_rows) :
    (L.map (fun p => p.2.diff)).sum =
      (L.map (fun p => p.2.backup_rows)).sum -
        (L.map (fun p => p.2.current_rows)).sum := by
  induction L with
  | nil => rfl
  | cons p rest ih =>
      simp only [List.map_cons, List.sum_cons]
      rw [h p (by simp), ih (fun q hq => h q (by simp [hq]))]
      ring

/-- C6: calculate_diff records exactly one entry per table of the union of
snapshot tables and live tables (alembic_version excluded from the live-only
side): a snapshot table gets TableDiff(current, backup, backup - current)
with current zero when the table is not live, a live-only table gets
TableDiff(current, 0, -current), and the totals are the sums over all
recorded tables with total_diff equal to total_backup_rows minus
total_current_rows (equivalently the sum of the per-table diffs). -/
theorem calculate_diff_characterization (bd : BackupData) (cat : Catalog)
    (cnt : String → Int)
    (hcnt : ∀ t ∈ cat.liveNames, cat.countOf t = .ok (cnt t))
    (hnodup : (bd.tables.map Prod.fst).Nodup) :
    ∃ ds, calculate_diff (.ok bd) cat = .ok ds ∧
      (ds.tables.map Prod.fst).Nodup ∧
      (∀ t, t ∈ ds.tables.map Prod.fst ↔
        t ∈ bd.tables.map Prod.fst ∨
          (t ∈ cat.liveNames ∧ t ∉ bd.tables.map Prod.fst ∧
            t ≠ "alembic_version")) ∧
      (∀ t tb, alookup t bd.tables = some tb →
        alookup t ds.tables =
          some ⟨snapCurrent cat cnt t, tb.row_count,
            tb.row_count - snapCurrent cat cnt t⟩) ∧
      (∀ t, t ∈ cat.liveNames → t ∉ bd.tables.map Prod.fst →
        t ≠ "alembic_version" →
        alookup t ds.tables = some ⟨cnt t, 0, -(cnt t)⟩) ∧
      ds.total_current_rows = (ds.tables.map (fun p => p.2.current_rows)).sum ∧
      ds.total_backup_rows = (ds.tables.map (fun p => p.2.backup_rows)).sum ∧
      ds.total_diff = ds.total_backup_rows - ds.total_current_rows ∧
      ds.total_diff = (ds.tables.map (fun p => p.2.diff)).sum := by
  refine ⟨_, calculate_diff_eq bd cat cnt hcnt, ?_, ?_, ?_, ?_, ?_, ?_, ?_, ?_⟩
  · rw [List.map_append, List.map_map, List.map_map]
    have h1 : (bd.tables.map (Prod.fst ∘ fun p =>
        ((p.1 : String), (⟨snapCurrent cat cnt p.1, p.2.row_count,
          p.2.row_count - snapCurrent cat cnt p.1⟩ : TableDiff)))) =
        bd.tables.map Prod.fst := rfl
    have h2 : ((liveOnlyNames cat (bd.tables.map Prod.fst)).map
        (Prod.fst ∘ fun t => ((t : String),
          (⟨cnt t, 0, -(cnt t)⟩ : TableDiff)))) =
        liveOnlyNames cat (bd.tables.map Prod.fst) := List.map_id ..
    rw [h1, h2]
    refine List.Nodup.append hnodup (List.nodup_dedup _)
      (List.disjoint_left.mpr ?_)
    intro t ht hlo
    exact ((mem_liveOnlyNames cat _ t).mp hlo).2.1 ht
  · intro t
    rw [List.map_append, List.map_map, List.map_map]
    have h1 : (bd.tables.map (Prod.fst ∘ fun p =>
        ((p.1 : String), (⟨snapCurrent cat cnt p.1, p.2.row_count,
          p.2.row_count - snapCurrent cat cnt p.1⟩ : TableDiff)))) =
        bd.tables.map Prod.fst := rfl
    have h2 : ((liveOnlyNames cat (bd.tables.map Prod.fst)).map
        (Prod.fst ∘ fun t => ((t : String),
          (⟨cnt t, 0, -(cnt t)⟩ : TableDiff)))) =
        liveOnlyNames cat (bd.tables.map Prod.fst) := List.map_id ..
    rw [h1, h2, List.mem_append, mem_liveOnlyNames]
  · intro t tb htb
    rw [alookup_append, alookup_snapDiffMap, htb]
    rfl
  · intro t hlive hnot hne
    rw [alookup_append]
    have hnone : alookup t (bd.tables.map (fun p => ((p.1 : String),
        (⟨snapCurrent cat cnt p.1, p.2.row_count,
          p.2.row_count - snapCurrent cat cnt p.1⟩ : TableDiff)))) = none := by
      apply alookup_eq_none
      rw [List.map_map]
      exact hnot
    rw [hnone, alookup_map_self]
    rw [if_pos ((mem_liveOnlyNames cat _ t).mpr ⟨hlive, hnot, hne⟩)]
  · rw [List.map_append, List.sum_append, List.map_map, List.map_map]
    rfl
  · rw [List.map_append, List.sum_append, List.map_map, List.map_map]
    have hz : (((liveOnlyNames cat (bd.tables.map Prod.fst)).map
        ((fun (p : String × TableDiff) => p.2.backup_rows) ∘ fun t =>
          (t, ⟨cnt t, 0, -(cnt t)⟩))).sum) = 0 := sum_map_zero _
    rw [hz]
    rw [add_zero]
    rfl
  · rfl
  · rw [sum_diff_split]
    · rw [List.map_append, List.map_append, List.sum_append, List.sum_append,
        List.map_map, List.map_map, List.map_map, List.map_map]
      have hz : (((liveOnlyNames cat (bd.tables.map Prod.fst)).map
          ((fun (p : String × TableDiff) => p.2.backup_rows) ∘ fun t =>
            (t, ⟨cnt t, 0, -(cnt t)⟩))).sum) = 0 := sum_map_zero _
      rw [hz]
      rw [add_zero]
      rfl
    · intro p hp
      rw [List.mem_append] at hp
      rcases hp with hp | hp
      · rw [List.mem_map] at hp
        obtain ⟨q, hq, rfl⟩ := hp
        rfl
      · rw [List.mem_map] at hp
        obtain ⟨n, hn, rfl⟩ := hp
        simp

/-- Snapshot used by the C6 witness. -/
def bdDiffW : BackupData :=
  ⟨⟨"1.0", ⟨2024, 1, 1, 0, 0, 0, 0, none⟩, "r1", "app", "db"⟩,
   [("a", ⟨2, ["x"], [[.vint 1], [.vint 2]]⟩)]⟩

/-- Catalog used by the C6 witness. -/
def catDiffW : Catalog :=
  ⟨["a", "b", "alembic_version"],
   fun t => .ok (if t = "a" then 5 else 3)⟩

/-- Witness for C6: the characterization applied to one concrete snapshot and
catalog yields a well-formed summary. -/
theorem calculate_diff_characterization_witness :
    (calculate_diff (.ok bdDiffW) catDiffW).isOk = true := by
  obtain ⟨ds, hds, _⟩ := calculate_diff_characterization bdDiffW catDiffW
    (fun t => if t = "a" then 5 else 3) (by decide) (by decide)
  rw [hds]
  rfl

/-- Catalog whose only table is listed but whose count query fails, the
concurrently-dropped-table race. -/
def catDropped : Catalog :=
  ⟨["t"], fun u => if u = "t" then .error (.opError "dropped") else .ok 0⟩

/-- Snapshot containing the table whose count query fails. -/
def bdDropped : BackupData :=
  ⟨⟨"1.0", ⟨2024, 1, 1, 0, 0, 0, 0, none⟩, "r1", "app", "db"⟩,
   [("t", ⟨3, ["x"], [[.vint 1], [.vint 2], [.vint 3]]⟩)]⟩

/-- C5 counterexample: when the count query for one individual snapshot table
fails while the catalog still lists the table (the connection as a whole is
available: listing succeeded), calculate_diff does not degrade that table to
zero rows; it aborts the whole diff with a RuntimeError wrapping the cause.
No SchemaAccessError type exists anywhere in the code. -/
theorem calculate_diff_aborts_on_count_failure :
    "t" ∈ catDropped.liveNames ∧ "t" ∈ bdDropped.tables.map Prod.fst ∧
    calculate_diff (.ok bdDropped) catDropped =
      .error (.runtimeError (.opError "dropped")) :=
  ⟨by decide, by decide, by decide⟩

theorem diffSnapshotLoop_error (cat : Catalog) :
    ∀ (l : List (String × TableBackup)) (t : String) (e : Err),
      t ∈ l.map Prod.fst → t ∈ cat.liveNames → cat.countOf t = .error e →
      ∃ e2, diffSnapshotLoop cat l = .error e2 := by
  intro l
  induction l with
  | nil => intro t e ht _ _; simp at ht
  | cons p rest ih =>
      intro t e ht hlive herr
      obtain ⟨name, tb⟩ := p
      simp only [List.map_cons, List.mem_cons] at ht
      simp only [diffSnapshotLoop]
      by_cases hm : name ∈ cat.liveNames
      · rw [if_pos hm]
        cases hc : cat.countOf name with
        | error e2 => exact ⟨e2, rfl⟩
        | ok v =>
            rcases ht with rfl | ht2
            · rw [herr] at hc
              exact Except.noConfusion hc
            · obtain ⟨e2, h2⟩ := ih t e ht2 hlive herr
              rw [h2]
              exact ⟨e2, rfl⟩
      · rw [if_neg hm]
        rcases ht with rfl | ht2
        · exact absurd hlive hm
        · obtain ⟨e2, h2⟩ := ih t e ht2 hlive herr
          rw [h2]
          exact ⟨e2, rfl⟩

/-- C5 as amended: a snapshot table that the live catalog no longer lists is
degraded to zero current rows without aborting the diff; but a failure of the
count query itself for a listed snapshot table aborts the whole diff with a
RuntimeError wrapping the exception (there is no SchemaAccessError and no
per-table exception handling in calculate_diff). -/
theorem calculate_diff_individual_failure (bd : BackupData) (cat : Catalog) :
    (∀ cnt : String → Int, (∀ t ∈ cat.liveNames, cat.countOf t = .ok (cnt t)) →
      ∀ t tb, alookup t bd.tables = some tb → t ∉ cat.liveNames →
        ∃ ds, calculate_diff (.ok bd) cat = .ok ds ∧
          alookup t ds.tables = some ⟨0, tb.row_count, tb.row_count - 0⟩) ∧
    (∀ (t : String) (e : Err), t ∈ bd.tables.map Prod.fst → t ∈ cat.liveNames →
      cat.countOf t = .error e →
      ∃ e2, calculate_diff (.ok bd) cat = .error (.runtimeError e2)) := by
  constructor
  · intro cnt hcnt t tb htb hnot
    refine ⟨_, calculate_diff_eq bd cat cnt hcnt, ?_⟩
    rw [alookup_append, alookup_snapDiffMap, htb]
    simp only [Option.map_some, snapCurrent, if_neg hnot]
    rfl
  · intro t e ht hlive herr
    obtain ⟨e2, h2⟩ := diffSnapshotLoop_error cat bd.tables t e ht hlive herr
    refine ⟨e2, ?_⟩
    simp only [calculate_diff, calculate_diff_body]
    rw [h2]

/-- Snapshot with a table absent from the live catalog, for the C5 witness. -/
def bdAbsent : BackupData :=
  ⟨⟨"1.0", ⟨2024, 1, 1, 0, 0, 0, 0, none⟩, "r1", "app", "db"⟩,
   [("t", ⟨2, ["x"], [[.vint 1], [.vint 2]]⟩)]⟩

/-- Catalog that lists no tables, for the C5 witness. -/
def catAbsent : Catalog := ⟨[], fun _ => .ok 0⟩

/-- Witness for C5 as amended: the absent table degrades to zero current rows
without aborting, and a failing count for a listed table aborts with a
RuntimeError. -/
theorem calculate_diff_individual_failure_witness :
    (∃ ds, calculate_diff (.ok bdAbsent) catAbsent = .ok ds ∧
      alookup "t" ds.tables = some ⟨0, 2, 2 - 0⟩) ∧
    (∃ e2, calculate_diff (.ok bdDropped) catDropped =
      .error (.runtimeError e2)) :=
  ⟨(calculate_diff_individual_failure bdAbsent catAbsent).1 (fun _ => 0)
      (by decide) "t" ⟨2, ["x"], [[.vint 1], [.vint 2]]⟩ (by decide) (by decide),
   (calculate_diff_individual_failure bdDropped catDropped).2 "t"
      (.opError "dropped") (by decide) (by decide) (by decide)⟩

/-! ## C8: idempotence of restore -/

theorem mapExcept_ok_length {a b : Type} (f : a → Except Err b) :
    ∀ (l : List a) (out : List b), mapExcept f l = .ok out → out.length = l.length := by
  intro l
  induction l with
  | nil =>
      intro out h
      simp only [mapExcept, Except.ok.injEq] at h
      rw [← h]
      rfl
  | cons x rest ih =>
      intro out h
      simp only [mapExcept] at h
      split at h
      · exact Except.noConfusion h
      · split at h
        · exact Except.noConfusion h
        · next ys hys =>
            simp only [Except.ok.injEq] at h
            rw [← h]
            simp [ih ys hys]

theorem alookup_mem_keys {b : Type} (t : String) (l : List (String × b))
    (h : t ∈ l.map Prod.fst) : ∃ v, alookup t l = some v := by
  induction l with
  | nil => simp at h
  | cons p rest ih =>
      simp only [List.map_cons, List.mem_cons] at h
      by_cases hp : p.1 = t
      · exact ⟨p.2, by simp [alookup, hp]⟩
      · rcases h with h | h
        · exact absurd h.symm hp
        · obtain ⟨v, hv⟩ := ih h
          exact ⟨v, by simp [alookup, hp, hv]⟩

theorem alookup_of_nodup {b : Type} (l : List (String × b))
    (hn : (l.map Prod.fst).Nodup) :
    ∀ t v, (t, v) ∈ l → alookup t l = some v := by
  induction l with
  | nil => intro t v h; simp at h
  | cons p rest ih =>
      simp only [List.map_cons, List.nodup_cons] at hn
      intro t v h
      rcases List.mem_cons.mp h with rfl | h2
      · simp [alookup]
      · have hpt : ¬ p.1 = t := by
          intro hx
          exact hn.1 (hx ▸ (List.mem_map.mpr ⟨(t, v), h2, rfl⟩))
        simp only [alookup, if_neg hpt]
        exact ih hn.2 t v h2

theorem keys_setTableRows (s : DBState) (name : String) (rows : List Row) :
    (setTableRows s name rows).tables.map Prod.fst = s.tables.map Prod.fst := by
  simp only [setTableRows, List.map_map]
  apply List.map_congr_left
  intro p hp
  by_cases hp1 : p.1 = name <;> simp [hp1]

theorem keys_truncateAll (s : DBState) :
    (truncateAll s).tables.map Prod.fst = s.tables.map Prod.fst := by
  simp only [truncateAll, List.map_map]
  apply List.map_congr_left
  intro p hp
  by_cases hp1 : p.1 = "alembic_version" <;> simp [hp1]

/-- Rows produced for one snapshot table by a successful reinsertion (the
decoded snapshot rows; the default branch is unreachable on the success
path). -/
def decodedOrDefault (tb : TableBackup) : List Row :=
  match mapExcept (decodeRow tb.columns) tb.data with
  | .ok rows => rows
  | .error _ => []

/-- Rows of a non-revision table after a successful restore transaction. -/
def tableAfterRestore (bd : BackupData) (t : String) : List Row :=
  match alookup t bd.tables with
  | some tb => if tb.row_count = 0 then [] else decodedOrDefault tb
  | none => []

/-- Rows of alembic_version after the adjust step of a successful restore. -/
def alembicAfter (bd : BackupData) (db0 : DBState) : List Row :=
  match get_current_migration_version db0 with
  | .ok current =>
      if bd.metadata.migration_version ≠ current then
        if bd.metadata.migration_version ≠ "" then
          [[("version_num", .vstr bd.metadata.migration_version)]]
        else []
      else (lookupTable db0 "alembic_version").getD []
  | .error _ => []

/-- Rows of any table after a successful restore transaction. -/
def restoredRows (bd : BackupData) (db0 : DBState) (t : String) : List Row :=
  if t = "alembic_version" then alembicAfter bd db0 else tableAfterRestore bd t

/-- Lookup through the truncate-and-adjust image: a listed non-revision table
maps to no rows. -/
theorem alookup_adjustMap (A : List Row) (l : List (String × List Row))
    (t : String) (ht : t ∈ l.map Prod.fst) (hta : t ≠ "alembic_version") :
    alookup t (l.map (fun p =>
      if p.1 = "alembic_version" then (p.1, A) else (p.1, ([] : List Row)))) =
      some [] := by
  induction l with
  | nil => simp at ht
  | cons p rest ih =>
      simp only [List.map_cons, List.mem_cons] at ht
      simp only [List.map_cons, alookup]
      by_cases hpt : p.1 = t
      · subst hpt
        have hav : ¬ p.1 = "alembic_version" := hta
        simp [hav]
      · rcases ht with h1 | h1
        · exact absurd h1.symm hpt
        · have hne2 : ¬ "alembic_version" = t := fun hx => hta hx.symm
          by_cases hav : p.1 = "alembic_version"
          · simp [hav, hpt, ih h1, hne2]
          · simp [hav, hpt, ih h1]

/-- Shape of the state after truncation and revision adjustment. -/
theorem adjust_shape (bd : BackupData) (db0 db2 : DBState)
    (hdb : (db0.tables.map Prod.fst).Nodup)
    (hadj : adjustMigrationVersion bd.metadata.migration_version db0
      (truncateAll db0) = .ok db2) :
    db2.tables = db0.tables.map (fun p =>
      if p.1 = "alembic_version" then (p.1, alembicAfter bd db0)
      else (p.1, ([] : List Row))) := by
  simp only [adjustMigrationVersion] at hadj
  split at hadj
  · exact Except.noConfusion hadj
  · next current hcur =>
      simp only [alembicAfter, hcur]
      split at hadj
      · next hne =>
          rw [if_pos hne]
          split at hadj
          · split at hadj
            · next hne2 =>
                rw [if_pos hne2]
                simp only [Except.ok.injEq] at hadj
                rw [← hadj]
                simp only [setTableRows, truncateAll, List.map_map]
                apply List.map_congr_left
                intro p hp
                by_cases hpa : p.1 = "alembic_version" <;> simp [hpa]
            · next hne2 =>
                rw [if_neg hne2]
                simp only [Except.ok.injEq] at hadj
                rw [← hadj]
                simp only [setTableRows, truncateAll, List.map_map]
                apply List.map_congr_left
                intro p hp
                by_cases hpa : p.1 = "alembic_version" <;> simp [hpa]
          · exact Except.noConfusion hadj
      · next hne =>
          rw [if_neg hne]
          simp only [Except.ok.injEq] at hadj
          rw [← hadj]
          simp only [truncateAll]
          apply List.map_congr_left
          intro p hp
          by_cases hpa : p.1 = "alembic_version"
          · rw [if_pos hpa, if_pos hpa]
            have hl : lookupTable db0 "alembic_version" = some p.2 := by
              rw [← hpa]
              exact alookup_of_nodup db0.tables hdb p.1 p.2 (by simpa using hp)
            rw [hl]
            simp [Prod.ext_iff, hpa]
          · rw [if_neg hpa, if_neg hpa]

/-- Shape of the state after the reinsertion loop. -/
theorem reinsertAll_shape :
    ∀ (l : List (String × TableBackup)) (s db' : DBState) (nt : Nat) (nr : Int),
      (l.map Prod.fst).Nodup →
      reinsertAll s l = .ok (db', nt, nr) →
      db'.tables = s.tables.map (fun p =>
        match alookup p.1 l with
        | some tb => if tb.row_count = 0 then p
            else (p.1, (alookup p.1 s.tables).getD [] ++ decodedOrDefault tb)
        | none => p) := by
  intro l
  induction l with
  | nil =>
      intro s db' nt nr _ h
      simp only [reinsertAll, Except.ok.injEq, Prod.mk.injEq] at h
      rw [← h.1]
      have : ∀ p ∈ s.tables,
          (match alookup p.1 ([] : List (String × TableBackup)) with
           | some tb => if tb.row_count = 0 then p
               else (p.1, (alookup p.1 s.tables).getD [] ++ decodedOrDefault tb)
           | none => p) = p := fun p _ => rfl
      rw [List.map_congr_left this]
      simp
  | cons q rest ih =>
      obtain ⟨name, tb⟩ := q
      intro s db' nt nr hn h
      simp only [List.map_cons, List.nodup_cons] at hn
      obtain ⟨hnin, hrest⟩ := hn
      simp only [reinsertAll] at h
      split at h
      · next hrc =>
          rw [ih s db' nt nr hrest h]
          apply List.map_congr_left
          intro p hp
          simp only [alookup]
          by_cases hpn : name = p.1
          · rw [if_pos hpn, alookup_eq_none p.1 rest (hpn ▸ hnin)]
            simp [hrc]
          · rw [if_neg hpn]
      · next hrc =>
          split at h
          · exact Except.noConfusion h
          · next cur hcur =>
              split at h
              · exact Except.noConfusion h
              · next newRows hnew =>
                  split at h
                  · exact Except.noConfusion h
                  · next db2 nt2 nr2 hrec =>
                      simp only [Except.ok.injEq, Prod.mk.injEq] at h
                      rw [← h.1]
                      rw [ih _ db2 nt2 nr2 hrest hrec]
                      simp only [setTableRows, List.map_map]
                      apply List.map_congr_left
                      intro p hp
                      simp only [Function.comp]
                      by_cases hpn : p.1 = name
                      · rw [if_pos hpn]
                        simp only [alookup, if_pos hpn.symm,
                          alookup_eq_none p.1 rest (hpn ▸ hnin), if_neg hrc]
                        have hlk : alookup p.1 s.tables = some cur := by
                          rw [hpn]
                          exact hcur
                        rw [hlk]
                        have hdec : decodedOrDefault tb = newRows := by
                          simp only [decodedOrDefault, hnew]
                        rw [hdec]
                        rfl
                      · rw [if_neg hpn]
                        simp only [alookup]
                        have hne2 : ¬ name = p.1 := fun hx => hpn hx.symm
                        rw [if_neg hne2]
                        rw [alookup_set_ne s.tables name (cur ++ newRows) p.1
                          (fun hx => hpn hx.symm)]

/-- Shape of a successful restore transaction: every table of the live
catalog keeps its name and receives the rows determined by the snapshot (the
decoded snapshot rows, no rows for a wiped table, the adjusted revision row
for alembic_version). -/
theorem restoreTransaction_shape (bd : BackupData) (db0 db1 : DBState)
    (nt : Nat) (nr : Int)
    (hnodup : (bd.tables.map Prod.fst).Nodup)
    (hdb : (db0.tables.map Prod.fst).Nodup)
    (hAl : "alembic_version" ∉ bd.tables.map Prod.fst)
    (htx : restoreTransaction bd db0 = .ok (db1, nt, nr)) :
    db1.tables = db0.tables.map (fun p => (p.1, restoredRows bd db0 p.1)) := by
  simp only [restoreTransaction] at htx
  split at htx
  · exact Except.noConfusion htx
  · next db2 hadj =>
      rw [reinsertAll_shape bd.tables db2 db1 nt nr hnodup htx]
      have hdb2 := adjust_shape bd db0 db2 hdb hadj
      rw [hdb2, List.map_map]
      apply List.map_congr_left
      intro p hp
      simp only [Function.comp]
      by_cases hpa : p.1 = "alembic_version"
      · rw [if_pos hpa]
        have hnone : alookup p.1 bd.tables = none :=
          alookup_eq_none p.1 bd.tables (hpa ▸ hAl)
        simp only [hnone]
        simp [restoredRows, hpa]
      · rw [if_neg hpa]
        dsimp only
        simp only [restoredRows, if_neg hpa, tableAfterRestore]
        cases hbt : alookup p.1 bd.tables with
        | none => rfl
        | some tb =>
            by_cases hrc : tb.row_count = 0
            · simp [hrc]
            · have hlk : alookup p.1 (db0.tables.map (fun p =>
                  if p.1 = "alembic_version" then (p.1, alembicAfter bd db0)
                  else (p.1, ([] : List Row)))) = some [] :=
                alookup_adjustMap (alembicAfter bd db0) db0.tables p.1
                  (List.mem_map.mpr ⟨p, hp, rfl⟩) hpa
              simp [hrc, hlk]

end FastapiBackup
